import Mathlib

set_option maxHeartbeats 1000000

/-!
Verification of `src/web-client/ts/common.ts` (FeoBlog web client utilities).

We shallowly embed the four pieces of the file that the specification talks
about:

* `parseUserID` / `parseUserIDError` — base58 user-ID validation.  The
  external `bs58.decode` library call is modelled as an explicit parameter
  `decode : String → Option (List Nat)` (`none` models a decode that throws);
  everything after the decode is translated line by line from the source.
* `validateServerURL` — the regex `^(https?:\/\/[^/ ]+)$` is translated into
  an executable matcher on the string's character list.
* `TaskTracker` — the mutable class becomes a state record; `run`'s wrapped
  async task is modelled by the entries it appends through the tracker's
  logging methods together with the exception it throws, if any.  Wall-clock
  timestamps (`DateTime.local().valueOf()`) are external inputs, passed in
  explicitly.
* `prefetch` — the async generator.  The asynchronous source becomes a finite
  list, a promise produced by `asyncFilter` becomes its eventual outcome
  `Except E Out` (`Except.error` models a rejected promise: yielding it makes
  the generator throw and terminate).  The runner is instrumented: besides the
  yielded outputs and the terminating error it records the length of the
  pending-promise buffer after every push/shift and the number of transform
  submissions, so that the window invariants can be stated.
-/

namespace Feoblog

/-! ## parseUserID (src/web-client/ts/common.ts lines 15-40) -/

def USER_ID_BYTES : Nat := 32

def PASSWORD_BYTES : Nat := USER_ID_BYTES + 4

/-- `parseUserID`, with the external `bs58.decode` passed in as `decode`
(`none` models the decode throwing).  A thrown string becomes `Except.error`. -/
def parseUserID (decode : String → Option (List Nat)) (userID : String) :
    Except String (List Nat) :=
  if userID.length = 0 then
    Except.error "UserID must not be empty."
  else
    match decode userID with
    | none => Except.error "Not valid base58"
    | some buf =>
      if buf.length < USER_ID_BYTES then
        Except.error "UserID too short"
      else if buf.length = PASSWORD_BYTES then
        Except.error "UserID too long. (This may be a paswword!?)"
      else if buf.length > USER_ID_BYTES then
        Except.error "UserID too long."
      else
        Except.ok buf

/-- `parseUserIDError` (lines 42-49): catches the message thrown by
`parseUserID` and returns it; returns `""` when parsing succeeds. -/
def parseUserIDError (decode : String → Option (List Nat)) (userID : String) :
    String :=
  match parseUserID decode userID with
  | Except.error errorMessage => errorMessage
  | Except.ok _ => ""

/-! ## validateServerURL (lines 196-209) -/

/-- One character of the `[^/ ]` class of the server-URL regex. -/
def hostCharOk (c : Char) : Bool :=
  c ≠ '/' && c ≠ ' '

/-- The `[^/ ]+` part of the regex: a non-empty run of allowed characters. -/
def hostOk (host : List Char) : Bool :=
  decide (host ≠ []) && host.all hostCharOk

/-- Literal-prefix test used to translate the anchored regex. -/
def startsWithChars (p s : List Char) : Bool :=
  s.take p.length = p

/-- The anchored regex `^(https?:\/\/[^/ ]+)$` as a matcher on the
character list of the URL: the literal scheme prefix (`https?:\/\/` expands
to one of two literal alternatives), then `[^/ ]+` on the remainder. -/
def serverURLPatternMatches (url : List Char) : Bool :=
  (startsWithChars ("http://").toList url
    && hostOk (url.drop ("http://").toList.length))
  || (startsWithChars ("https://").toList url
    && hostOk (url.drop ("https://").toList.length))

/-- `validateServerURL`: empty string means no error. -/
def validateServerURL (url : String) : String :=
  if url = "" then
    ""
  else if serverURLPatternMatches url.toList then
    ""
  else
    "Invalid server URL format"

/-- Modelled from the spec: the pattern the spec describes as
"`http(s)://host`": scheme `http` or `https`, then `://`, then a non-empty
host containing no `/` or space.  Used to check `validateServerURL` against
the spec's wording. -/
def specServerURLOk (url : String) : Prop :=
  ∃ scheme host : String,
    (scheme = "http" ∨ scheme = "https") ∧
    host ≠ "" ∧
    (∀ c ∈ host.toList, c ≠ '/' ∧ c ≠ ' ') ∧
    url = scheme ++ "://" ++ host

/-! ## TaskTracker (lines 115-193) -/

structure LogEntry where
  timestamp : Nat
  message : String
  isError : Bool := false
  isWarning : Bool := false
deriving Repr, DecidableEq

/-- The mutable state of a `TaskTracker`.  The svelte `store` only mirrors
this state outward (`notify`), so it is not part of the state. -/
structure TaskTracker where
  _isRunning : Bool := false
  _logs : List LogEntry := []
deriving Repr, DecidableEq

def TaskTracker.clear (t : TaskTracker) : TaskTracker :=
  { t with _logs := [] }

def TaskTracker.writeLog (t : TaskTracker) (log : LogEntry) : TaskTracker :=
  { t with _logs := t._logs ++ [log] }

def TaskTracker.error (t : TaskTracker) (now : Nat) (message : String) :
    TaskTracker :=
  t.writeLog { message := message, isError := true, timestamp := now }

def TaskTracker.warn (t : TaskTracker) (now : Nat) (message : String) :
    TaskTracker :=
  t.writeLog { message := message, isWarning := true, timestamp := now }

def TaskTracker.log (t : TaskTracker) (now : Nat) (message : String) :
    TaskTracker :=
  t.writeLog { message := message, timestamp := now }

/-- What the wrapped `asyncTask` does to the tracker before finishing: the
log entries it appends through the tracker's logging methods (in order), and
the exception it throws, if any (entries appended before the throw are kept,
as in the source). -/
structure TaskOutcome where
  appended : List LogEntry
  thrown : Option String

/-- `TaskTracker.run` (lines 136-147).  `tBegin`, `tCatch`, `tDone` are the
wall-clock readings for the three log writes `run` itself performs.  `run`
returns the final tracker state; it has no error result, mirroring that the
source catches the task's exception and does not re-throw. -/
def TaskTracker.run (t : TaskTracker) (task : TaskOutcome)
    (tBegin tCatch tDone : Nat) : TaskTracker :=
  let t1 := t.clear
  let t2 := { t1 with _isRunning := true }
  let t3 := t2.log tBegin "Begin"
  let t4 := { t3 with _logs := t3._logs ++ task.appended }
  let t5 :=
    match task.thrown with
    | none => t4
    | some e => t4.error tCatch ("Task threw an exception: " ++ e)
  let t6 := { t5 with _isRunning := false }
  t6.log tDone "Done"

/-! ## prefetch (lines 61-74) -/

/-- Result of one run of the inner
`while (outs.length > count) { yield assertExists(outs.shift()) }` loop:
the values yielded, the error that terminated the generator (if a shifted
promise was rejected), the buffer length after each shift, and the buffer
left over. -/
structure ShiftResult (E Out : Type) where
  yielded : List Out
  err : Option E
  lens : List Nat
  buf : List (Except E Out)
deriving Repr

/-- The `while (outs.length > count)` loop: shift the oldest pending promise
and yield its (awaited) value while the buffer is over the bound; a rejected
promise makes the yield throw, terminating the loop (and the generator) with
the remaining buffer abandoned. -/
def shiftWhile (count : Nat) : List (Except E Out) → ShiftResult E Out
  | [] => ⟨[], none, [], []⟩
  | o :: rest =>
    if rest.length + 1 > count then
      match o with
      | Except.error e => ⟨[], some e, [rest.length], rest⟩
      | Except.ok y =>
        let r := shiftWhile count rest
        ⟨y :: r.yielded, r.err, rest.length :: r.lens, r.buf⟩
    else
      ⟨[], none, [], o :: rest⟩

/-- Instrumented result of running the `prefetch` generator to completion:
the outputs yielded, the error that terminated it early (if any), the buffer
length after each push/shift, and the number of times `asyncFilter` was
invoked. -/
structure PrefetchResult (E Out : Type) where
  outputs : List Out
  error : Option E
  lens : List Nat
  submits : Nat
deriving Repr

/-- The body of `prefetch`: iterate the (finite) source; for each item push
`asyncFilter item`, then run the bound-enforcing shift loop; when the source
is exhausted, the final `while (outs.length > 0)` drain is the shift loop
with bound `0`. -/
def prefetchLoop (count : Nat) (f : T → Except E Out) :
    List T → List (Except E Out) → PrefetchResult E Out
  | [], outs =>
    let r := shiftWhile 0 outs
    ⟨r.yielded, r.err, r.lens, 0⟩
  | item :: rest, outs =>
    let outs1 := outs ++ [f item]
    let r := shiftWhile count outs1
    match r.err with
    | some e => ⟨r.yielded, some e, outs1.length :: r.lens, 1⟩
    | none =>
      let rec2 := prefetchLoop count f rest r.buf
      ⟨r.yielded ++ rec2.outputs, rec2.error,
        outs1.length :: (r.lens ++ rec2.lens), 1 + rec2.submits⟩

/-- `prefetch`: start with an empty buffer. -/
def prefetch (count : Nat) (f : T → Except E Out) (items : List T) :
    PrefetchResult E Out :=
  prefetchLoop count f items []

/-- The buffer-length trace of a `prefetch` run: the initial (empty) buffer,
then the length after every push and after every shift. -/
def prefetchTrace (count : Nat) (f : T → Except E Out) (items : List T) :
    List Nat :=
  0 :: (prefetch count f items).lens

/-- Modelled from the spec: "naive sequential await-each-item processing" —
for each source element in order, submit the transform and immediately await
it before consuming the next element.  Used to check the `count = 0`
degeneration claim. -/
def naiveSequential (f : T → Except E Out) : List T → List Out × Option E
  | [] => ([], none)
  | item :: rest =>
    match f item with
    | Except.error e => ([], some e)
    | Except.ok y =>
      let r := naiveSequential f rest
      (y :: r.1, r.2)

/-! ## Helper lemmas about the shift loop -/

theorem shiftWhile_nil (count : Nat) :
    shiftWhile count ([] : List (Except E Out)) = ⟨[], none, [], []⟩ := rfl

theorem shiftWhile_cons (count : Nat) (o : Except E Out)
    (rest : List (Except E Out)) :
    shiftWhile count (o :: rest) =
      if rest.length + 1 > count then
        match o with
        | Except.error e => ⟨[], some e, [rest.length], rest⟩
        | Except.ok y =>
          let r := shiftWhile count rest
          ⟨y :: r.yielded, r.err, rest.length :: r.lens, r.buf⟩
      else ⟨[], none, [], o :: rest⟩ := rfl

/-- A buffer already within the bound is left untouched by the shift loop. -/
theorem shiftWhile_of_le (count : Nat) (outs : List (Except E Out))
    (h : outs.length ≤ count) : shiftWhile count outs = ⟨[], none, [], outs⟩ := by
  cases outs with
  | nil => simp [shiftWhile_nil]
  | cons o rest =>
    rw [shiftWhile_cons]
    rw [if_neg]
    simp only [List.length_cons] at h
    omega

/-- Every buffer length recorded by the shift loop is below the length of the
buffer it started from. -/
theorem shiftWhile_lens_lt (count : Nat) (outs : List (Except E Out)) :
    ∀ n ∈ (shiftWhile count outs).lens, n < outs.length := by
  induction outs with
  | nil => simp [shiftWhile_nil]
  | cons o rest ih =>
    rw [shiftWhile_cons]
    by_cases h : rest.length + 1 > count
    · rw [if_pos h]
      cases o with
      | error e => simp
      | ok y =>
        simp only [List.length_cons, List.mem_cons]
        intro n hn
        rcases hn with h1 | h2
        · omega
        · have := ih n h2
          omega
    · rw [if_neg h]
      simp

/-- If the shift loop finished without an error, it drove the buffer down to
the bound. -/
theorem shiftWhile_buf_le (count : Nat) (outs : List (Except E Out))
    (h : (shiftWhile count outs).err = none) :
    (shiftWhile count outs).buf.length ≤ count := by
  induction outs with
  | nil => simp [shiftWhile_nil]
  | cons o rest ih =>
    rw [shiftWhile_cons] at h ⊢
    by_cases hc : rest.length + 1 > count
    · rw [if_pos hc] at h ⊢
      cases o with
      | error e => simp at h
      | ok y =>
        simp only at h ⊢
        exact ih h
    · rw [if_neg hc] at h ⊢
      simp only [List.length_cons]
      omega

/-- On an all-resolved buffer the shift loop yields the over-bound prefix, in
order, signals no error, and keeps the rest. -/
theorem shiftWhile_ok (count : Nat) (zs : List Out) :
    (shiftWhile (E := E) count (zs.map Except.ok)).yielded
        = zs.take (zs.length - count) ∧
    (shiftWhile (E := E) count (zs.map Except.ok)).err = none ∧
    (shiftWhile (E := E) count (zs.map Except.ok)).buf
        = (zs.drop (zs.length - count)).map Except.ok := by
  induction zs with
  | nil => simp [shiftWhile_nil]
  | cons z rest ih =>
    rw [List.map_cons, shiftWhile]
    by_cases h : (rest.map (Except.ok (ε := E))).length + 1 > count
    · rw [if_pos h]
      simp only [List.length_map] at h
      have hlen : (z :: rest).length - count = (rest.length - count) + 1 := by
        simp only [List.length_cons]
        omega
      rw [hlen]
      simp only [List.take_succ_cons, List.drop_succ_cons]
      exact ⟨by rw [ih.1], ih.2.1, ih.2.2⟩
    · rw [if_neg h]
      simp only [List.length_map] at h
      have hlen : (z :: rest).length - count = 0 := by
        simp only [List.length_cons]
        omega
      rw [hlen]
      simp

/-- The last recorded length of a shift-loop run is the length of the buffer
it leaves behind (or the default, when it recorded nothing because the buffer
was already within the bound). -/
theorem shiftWhile_lens_getLastD (count : Nat) (outs : List (Except E Out))
    (d : Nat) :
    (shiftWhile count outs).lens.getLastD d =
      if outs.length ≤ count then d else (shiftWhile count outs).buf.length := by
  induction outs generalizing d with
  | nil => simp [shiftWhile_nil]
  | cons o rest ih =>
    rw [shiftWhile_cons]
    by_cases h : rest.length + 1 > count
    · rw [if_pos h]
      cases o with
      | error e =>
        simp only [List.length_cons]
        rw [if_neg (by omega)]
        simp [List.getLastD_cons]
      | ok y =>
        simp only [List.length_cons, List.getLastD_cons]
        rw [if_neg (by omega)]
        rw [ih rest.length]
        by_cases h2 : rest.length ≤ count
        · rw [if_pos h2, shiftWhile_of_le count rest h2]
        · rw [if_neg h2]
    · rw [if_neg h]
      simp only [List.length_cons]
      rw [if_pos (by omega)]
      simp

/-- When the oldest pending promise sits behind `zs` resolved ones and is
rejected with `e`, the shift loop either stops before reaching it (yielding
some prefix of `zs`, no error) or yields all of `zs` and then throws `e`. -/
theorem shiftWhile_error_mid (count : Nat) (e : E) (zs : List Out)
    (rest : List (Except E Out)) :
    (∃ k,
      (shiftWhile count (zs.map Except.ok ++ Except.error e :: rest)).yielded
        = zs.take k ∧
      (shiftWhile count (zs.map Except.ok ++ Except.error e :: rest)).err
        = none ∧
      (shiftWhile count (zs.map Except.ok ++ Except.error e :: rest)).buf
        = (zs.drop k).map Except.ok ++ Except.error e :: rest) ∨
    ((shiftWhile count (zs.map Except.ok ++ Except.error e :: rest)).yielded
        = zs ∧
      (shiftWhile count (zs.map Except.ok ++ Except.error e :: rest)).err
        = some e) := by
  induction zs with
  | nil =>
    simp only [List.map_nil, List.nil_append]
    rw [shiftWhile_cons]
    by_cases h : rest.length + 1 > count
    · rw [if_pos h]
      right
      simp
    · rw [if_neg h]
      left
      exact ⟨0, by simp, rfl, by simp⟩
  | cons z zs' ih =>
    simp only [List.map_cons, List.cons_append]
    rw [shiftWhile_cons]
    by_cases h : (zs'.map Except.ok ++ Except.error e :: rest).length + 1 > count
    · rw [if_pos h]
      simp only
      rcases ih with ⟨k, hy, he, hb⟩ | ⟨hy, he⟩
      · left
        refine ⟨k + 1, ?_, he, ?_⟩
        · simp [hy]
        · simp [hb]
      · right
        exact ⟨by simp [hy], he⟩
    · rw [if_neg h]
      left
      exact ⟨0, by simp, rfl, by simp⟩

theorem prefetchLoop_nil (count : Nat) (f : T → Except E Out)
    (outs : List (Except E Out)) :
    prefetchLoop count f [] outs =
      ⟨(shiftWhile 0 outs).yielded, (shiftWhile 0 outs).err,
        (shiftWhile 0 outs).lens, 0⟩ := rfl

theorem prefetchLoop_cons (count : Nat) (f : T → Except E Out) (item : T)
    (rest : List T) (outs : List (Except E Out)) :
    prefetchLoop count f (item :: rest) outs =
      match (shiftWhile count (outs ++ [f item])).err with
      | some e =>
        ⟨(shiftWhile count (outs ++ [f item])).yielded, some e,
          (outs ++ [f item]).length :: (shiftWhile count (outs ++ [f item])).lens,
          1⟩
      | none =>
        ⟨(shiftWhile count (outs ++ [f item])).yielded
            ++ (prefetchLoop count f rest
                  (shiftWhile count (outs ++ [f item])).buf).outputs,
          (prefetchLoop count f rest
              (shiftWhile count (outs ++ [f item])).buf).error,
          (outs ++ [f item]).length
            :: ((shiftWhile count (outs ++ [f item])).lens
                ++ (prefetchLoop count f rest
                      (shiftWhile count (outs ++ [f item])).buf).lens),
          1 + (prefetchLoop count f rest
                  (shiftWhile count (outs ++ [f item])).buf).submits⟩ := rfl

theorem prefetchLoop_cons_none (count : Nat) (f : T → Except E Out) (item : T)
    (rest : List T) (outs : List (Except E Out))
    (h : (shiftWhile count (outs ++ [f item])).err = none) :
    prefetchLoop count f (item :: rest) outs =
      ⟨(shiftWhile count (outs ++ [f item])).yielded
          ++ (prefetchLoop count f rest
                (shiftWhile count (outs ++ [f item])).buf).outputs,
        (prefetchLoop count f rest
            (shiftWhile count (outs ++ [f item])).buf).error,
        (outs ++ [f item]).length
          :: ((shiftWhile count (outs ++ [f item])).lens
              ++ (prefetchLoop count f rest
                    (shiftWhile count (outs ++ [f item])).buf).lens),
        1 + (prefetchLoop count f rest
                (shiftWhile count (outs ++ [f item])).buf).submits⟩ := by
  rw [prefetchLoop_cons, h]

theorem prefetchLoop_cons_some (count : Nat) (f : T → Except E Out) (item : T)
    (rest : List T) (outs : List (Except E Out)) (e : E)
    (h : (shiftWhile count (outs ++ [f item])).err = some e) :
    prefetchLoop count f (item :: rest) outs =
      ⟨(shiftWhile count (outs ++ [f item])).yielded, some e,
        (outs ++ [f item]).length :: (shiftWhile count (outs ++ [f item])).lens,
        1⟩ := by
  rw [prefetchLoop_cons, h]

theorem listGetLastD_append (l1 l2 : List α) (d : α) :
    (l1 ++ l2).getLastD d = l2.getLastD (l1.getLastD d) := by
  induction l1 generalizing d with
  | nil => simp
  | cons a l ih =>
    rw [List.cons_append, List.getLastD_cons, List.getLastD_cons, ih]

/-- Running the generator body on a source whose transform always resolves,
starting from a buffer of already-resolved values, yields the buffered values
followed by the transformed source, submits once per source element, and
signals no error. -/
theorem prefetchLoop_allOk (count : Nat) (g : T → Out) (items : List T) :
    ∀ zs : List Out,
      (prefetchLoop (E := E) count (fun s => Except.ok (g s)) items
          (zs.map Except.ok)).outputs = zs ++ items.map g ∧
      (prefetchLoop (E := E) count (fun s => Except.ok (g s)) items
          (zs.map Except.ok)).error = none ∧
      (prefetchLoop (E := E) count (fun s => Except.ok (g s)) items
          (zs.map Except.ok)).submits = items.length := by
  induction items with
  | nil =>
    intro zs
    rw [prefetchLoop_nil]
    have h := shiftWhile_ok (E := E) 0 zs
    rw [Nat.sub_zero, List.take_length] at h
    exact ⟨by simp [h.1], by simp [h.2.1], rfl⟩
  | cons t rest ih =>
    intro zs
    have h1 : zs.map (Except.ok (ε := E)) ++ [(fun s => Except.ok (ε := E) (g s)) t]
        = (zs ++ [g t]).map Except.ok := by simp
    have hok := shiftWhile_ok (E := E) count (zs ++ [g t])
    have herr : (shiftWhile count (zs.map (Except.ok (ε := E))
        ++ [(fun s => Except.ok (ε := E) (g s)) t])).err = none := by
      rw [h1, hok.2.1]
    rw [prefetchLoop_cons_none count (fun s => Except.ok (g s)) t rest
      (zs.map Except.ok) herr]
    simp only
    rw [h1, hok.1, hok.2.2]
    obtain ⟨iho, ihe, ihs⟩ :=
      ih ((zs ++ [g t]).drop ((zs ++ [g t]).length - count))
    rw [iho, ihe, ihs]
    refine ⟨?_, rfl, by simp [Nat.add_comm]⟩
    rw [← List.append_assoc, List.take_append_drop]
    simp

/-- The window bound: every recorded buffer length stays at most `count + 1`
when the starting buffer is within the bound. -/
theorem prefetchLoop_lens_bound (count : Nat) (f : T → Except E Out)
    (items : List T) :
    ∀ outs : List (Except E Out), outs.length ≤ count →
      ∀ n ∈ (prefetchLoop count f items outs).lens, n ≤ count + 1 := by
  induction items with
  | nil =>
    intro outs h n hn
    rw [prefetchLoop_nil] at hn
    simp only at hn
    have := shiftWhile_lens_lt 0 outs n hn
    omega
  | cons t rest ih =>
    intro outs h n hn
    rcases herr : (shiftWhile count (outs ++ [f t])).err with _ | e
    · rw [prefetchLoop_cons_none _ _ _ _ _ herr] at hn
      simp only [List.mem_cons, List.mem_append] at hn
      rcases hn with h1 | h2 | h3
      · rw [List.length_append] at h1
        simp at h1
        omega
      · have := shiftWhile_lens_lt count (outs ++ [f t]) n h2
        rw [List.length_append] at this
        simp at this
        omega
      · exact ih _ (shiftWhile_buf_le count (outs ++ [f t]) herr) n h3
    · rw [prefetchLoop_cons_some _ _ _ _ _ e herr] at hn
      simp only [List.mem_cons] at hn
      rcases hn with h1 | h2
      · rw [List.length_append] at h1
        simp at h1
        omega
      · have := shiftWhile_lens_lt count (outs ++ [f t]) n h2
        rw [List.length_append] at this
        simp at this
        omega

/-- With an always-resolving transform the last recorded buffer length of a
run is `0`: the window is fully drained when the generator finishes. -/
theorem prefetchLoop_allOk_lens_last (count : Nat) (g : T → Out)
    (items : List T) :
    ∀ zs : List Out,
      (prefetchLoop (E := E) count (fun s => Except.ok (g s)) items
          (zs.map Except.ok)).lens.getLastD zs.length = 0 := by
  induction items with
  | nil =>
    intro zs
    rw [prefetchLoop_nil]
    simp only
    rw [shiftWhile_lens_getLastD]
    by_cases h : (zs.map (Except.ok (ε := E))).length ≤ 0
    · rw [if_pos h]
      simp at h
      simp [h]
    · rw [if_neg h]
      rw [(shiftWhile_ok 0 zs).2.2]
      simp
  | cons t rest ih =>
    intro zs
    have h1 : zs.map (Except.ok (ε := E)) ++ [(fun s => Except.ok (ε := E) (g s)) t]
        = (zs ++ [g t]).map Except.ok := by simp
    have hok := shiftWhile_ok (E := E) count (zs ++ [g t])
    have herr : (shiftWhile count (zs.map (Except.ok (ε := E))
        ++ [(fun s => Except.ok (ε := E) (g s)) t])).err = none := by
      rw [h1, hok.2.1]
    rw [prefetchLoop_cons_none count (fun s => Except.ok (g s)) t rest
      (zs.map Except.ok) herr]
    simp only
    rw [List.getLastD_cons, listGetLastD_append]
    rw [h1, hok.2.2]
    have hinner : (shiftWhile (E := E) count
        ((zs ++ [g t]).map Except.ok)).lens.getLastD
          ((zs ++ [g t]).map (Except.ok (ε := E))).length
        = ((zs ++ [g t]).drop ((zs ++ [g t]).length - count)).length := by
      rw [shiftWhile_lens_getLastD]
      by_cases h2 : ((zs ++ [g t]).map (Except.ok (ε := E))).length ≤ count
      · rw [if_pos h2]
        simp at h2 ⊢
        omega
      · rw [if_neg h2]
        rw [hok.2.2]
        simp
    rw [hinner]
    exact ih _

/-- Once a rejected promise sits in the buffer behind `zs` resolved values,
the rest of the run yields exactly `zs` and then the error, no matter what
the remaining source holds. -/
theorem prefetchLoop_error_drain (count : Nat) (f : T → Except E Out) (e : E)
    (post : List T) :
    ∀ (zs : List Out) (rest : List (Except E Out)),
      (prefetchLoop count f post
          (zs.map Except.ok ++ Except.error e :: rest)).outputs = zs ∧
      (prefetchLoop count f post
          (zs.map Except.ok ++ Except.error e :: rest)).error = some e := by
  induction post with
  | nil =>
    intro zs rest
    rw [prefetchLoop_nil]
    simp only
    rcases shiftWhile_error_mid 0 e zs rest with ⟨k, hy, he, hb⟩ | ⟨hy, he⟩
    · exfalso
      have := shiftWhile_buf_le 0 _ he
      rw [hb] at this
      simp [List.length_append] at this
    · exact ⟨hy, he⟩
  | cons p ps ih =>
    intro zs rest
    have hre : (zs.map (Except.ok (ε := E)) ++ Except.error e :: rest) ++ [f p]
        = zs.map Except.ok ++ Except.error e :: (rest ++ [f p]) := by
      simp
    rcases shiftWhile_error_mid count e zs (rest ++ [f p])
      with ⟨k, hy, he, hb⟩ | ⟨hy, he⟩
    · rw [prefetchLoop_cons_none count f p ps
        (zs.map Except.ok ++ Except.error e :: rest) (by rw [hre]; exact he)]
      simp only
      rw [hre, hy, hb]
      obtain ⟨iho, ihe⟩ := ih (zs.drop k) (rest ++ [f p])
      rw [iho, ihe]
      exact ⟨List.take_append_drop k zs, rfl⟩
    · rw [prefetchLoop_cons_some count f p ps
        (zs.map Except.ok ++ Except.error e :: rest) e (by rw [hre]; exact he)]
      simp [hre, hy]

/-- If the transform resolves (as `g`) on every element of `pre` and rejects
with `e` on `x`, the run over `pre ++ x :: post` yields the buffered values
followed by `g` over `pre`, in order, and then terminates with error `e`. -/
theorem prefetchLoop_error_main (count : Nat) (f : T → Except E Out)
    (g : T → Out) (x : T) (e : E) (post : List T)
    (hx : f x = Except.error e) :
    ∀ (pre : List T) (zs : List Out), (∀ s ∈ pre, f s = Except.ok (g s)) →
      (prefetchLoop count f (pre ++ x :: post)
          (zs.map Except.ok)).outputs = zs ++ pre.map g ∧
      (prefetchLoop count f (pre ++ x :: post)
          (zs.map Except.ok)).error = some e := by
  intro pre
  induction pre with
  | nil =>
    intro zs hpre
    simp only [List.nil_append, List.map_nil, List.append_nil]
    have hre : zs.map (Except.ok (ε := E)) ++ [f x]
        = zs.map Except.ok ++ Except.error e :: [] := by
      rw [hx]
    rcases shiftWhile_error_mid count e zs [] with ⟨k, hy, he, hb⟩ | ⟨hy, he⟩
    · rw [prefetchLoop_cons_none count f x post (zs.map Except.ok)
        (by rw [hre]; exact he)]
      simp only
      rw [hre, hy, hb]
      obtain ⟨iho, ihe⟩ := prefetchLoop_error_drain count f e post (zs.drop k) []
      rw [iho, ihe]
      exact ⟨List.take_append_drop k zs, rfl⟩
    · rw [prefetchLoop_cons_some count f x post (zs.map Except.ok) e
        (by rw [hre]; exact he)]
      simp [hre, hy]
  | cons s pre' ih =>
    intro zs hpre
    have hs : f s = Except.ok (g s) := hpre s (by simp)
    have h1 : zs.map (Except.ok (ε := E)) ++ [f s]
        = (zs ++ [g s]).map Except.ok := by
      rw [hs]
      simp
    have hok := shiftWhile_ok (E := E) count (zs ++ [g s])
    rw [List.cons_append]
    rw [prefetchLoop_cons_none count f s (pre' ++ x :: post)
      (zs.map Except.ok) (by rw [h1, hok.2.1])]
    simp only
    rw [h1, hok.1, hok.2.2]
    obtain ⟨iho, ihe⟩ :=
      ih ((zs ++ [g s]).drop ((zs ++ [g s]).length - count))
        (fun u hu => hpre u (by simp [hu]))
    rw [iho, ihe]
    refine ⟨?_, rfl⟩
    rw [← List.append_assoc, List.take_append_drop]
    simp

/-- With bound `0` and an empty starting buffer, the generator body computes
exactly the naive submit-then-await recursion. -/
theorem prefetchLoop_zero_naive (f : T → Except E Out) (items : List T) :
    (prefetchLoop 0 f items []).outputs = (naiveSequential f items).1 ∧
    (prefetchLoop 0 f items []).error = (naiveSequential f items).2 := by
  induction items with
  | nil => simp [prefetchLoop_nil, shiftWhile_nil, naiveSequential]
  | cons t rest ih =>
    rcases hft : f t with e | y
    · have hsw : shiftWhile (E := E) 0 ([] ++ [f t])
          = ⟨[], some e, [0], []⟩ := by
        rw [hft]
        rfl
      rw [prefetchLoop_cons_some 0 f t rest [] e (by rw [hsw])]
      simp only [hsw]
      simp [naiveSequential, hft]
    · have hsw : shiftWhile (E := E) 0 ([] ++ [f t])
          = ⟨[y], none, [0], []⟩ := by
        rw [hft]
        rfl
      rw [prefetchLoop_cons_none 0 f t rest [] (by rw [hsw])]
      simp only [hsw]
      obtain ⟨iho, ihe⟩ := ih
      rw [iho, ihe]
      simp [naiveSequential, hft]

/-! ## Helper lemmas for the validators -/

theorem stringToList_eq_data (s : String) : s.toList = s.data := rfl

theorem string_ne_empty_iff (s : String) : s ≠ "" ↔ s.data ≠ [] := by
  rw [not_iff_not]
  exact String.ext_iff

theorem hostCharOk_iff (c : Char) : hostCharOk c = true ↔ c ≠ '/' ∧ c ≠ ' ' := by
  simp [hostCharOk]

theorem hostOk_iff (l : List Char) :
    hostOk l = true ↔ l ≠ [] ∧ ∀ c ∈ l, c ≠ '/' ∧ c ≠ ' ' := by
  simp only [hostOk, Bool.and_eq_true, decide_eq_true_eq, List.all_eq_true]
  constructor
  · rintro ⟨h1, h2⟩
    exact ⟨h1, fun c hc => (hostCharOk_iff c).mp (h2 c hc)⟩
  · rintro ⟨h1, h2⟩
    exact ⟨h1, fun c hc => (hostCharOk_iff c).mpr (h2 c hc)⟩

/-- The translated regex accepts exactly the strings of the spec's
`http(s)://host` shape. -/
theorem serverURLPatternMatches_iff_spec (url : String) :
    serverURLPatternMatches url.toList = true ↔ specServerURLOk url := by
  constructor
  · intro h
    simp only [serverURLPatternMatches, Bool.or_eq_true, Bool.and_eq_true,
      startsWithChars, decide_eq_true_eq] at h
    rcases h with ⟨hp, hh⟩ | ⟨hp, hh⟩
    · rw [hostOk_iff] at hh
      refine ⟨"http", ⟨url.toList.drop ("http://").toList.length⟩,
        Or.inl rfl, ?_, ?_, ?_⟩
      · rw [string_ne_empty_iff]
        exact hh.1
      · exact hh.2
      · have hsplit :=
          List.take_append_drop (("http://").toList.length) url.toList
        rw [hp] at hsplit
        rw [String.ext_iff]
        simp only [String.data_append]
        rw [← stringToList_eq_data url, ← hsplit]
        rfl
    · rw [hostOk_iff] at hh
      refine ⟨"https", ⟨url.toList.drop ("https://").toList.length⟩,
        Or.inr rfl, ?_, ?_, ?_⟩
      · rw [string_ne_empty_iff]
        exact hh.1
      · exact hh.2
      · have hsplit :=
          List.take_append_drop (("https://").toList.length) url.toList
        rw [hp] at hsplit
        rw [String.ext_iff]
        simp only [String.data_append]
        rw [← stringToList_eq_data url, ← hsplit]
        rfl
  · rintro ⟨scheme, host, hscheme, hhost, hchars, rfl⟩
    simp only [serverURLPatternMatches, Bool.or_eq_true, Bool.and_eq_true,
      startsWithChars, decide_eq_true_eq]
    rcases hscheme with rfl | rfl
    · left
      have hdata : ("http" ++ "://" ++ host).toList
          = ("http://").toList ++ host.data := by
        simp only [stringToList_eq_data, String.data_append]
        rfl
      refine ⟨?_, ?_⟩
      · rw [hdata, List.take_left]
      · rw [hdata, List.drop_left, hostOk_iff]
        exact ⟨(string_ne_empty_iff host).mp hhost, hchars⟩
    · right
      have hdata : ("https" ++ "://" ++ host).toList
          = ("https://").toList ++ host.data := by
        simp only [stringToList_eq_data, String.data_append]
        rfl
      refine ⟨?_, ?_⟩
      · rw [hdata, List.take_left]
      · rw [hdata, List.drop_left, hostOk_iff]
        exact ⟨(string_ne_empty_iff host).mp hhost, hchars⟩

/-- Every message `parseUserID` can throw is non-empty. -/
theorem parseUserID_error_msgs (decode : String → Option (List Nat))
    (s m : String) (h : parseUserID decode s = Except.error m) : m ≠ "" := by
  unfold parseUserID at h
  by_cases h0 : s.length = 0
  · rw [if_pos h0] at h
    injection h with h
    subst h
    decide
  · rw [if_neg h0] at h
    rcases hd : decode s with _ | buf
    · rw [hd] at h
      injection h with h
      subst h
      decide
    · rw [hd] at h
      dsimp only at h
      split_ifs at h <;> injection h with h <;> subst h <;> decide

/-! ## Claim theorems -/

/-- C1: for every finite source sequence, every bound `count ≥ 0` and every
transform (a transform whose promise always resolves, with value function
`g`), the output of `prefetch` equals the source mapped elementwise through
the transform, in exactly source order — the generator always awaits the
oldest pending promise, so a later-completing transform can never overtake an
earlier one — with no error, and with exactly one transform submission per
source element. -/
theorem prefetch_output_is_map {T E Out : Type} (count : Nat) (g : T → Out)
    (items : List T) :
    (prefetch (E := E) count (fun s => Except.ok (g s)) items).outputs
      = items.map g ∧
    (prefetch (E := E) count (fun s => Except.ok (g s)) items).error = none ∧
    (prefetch (E := E) count (fun s => Except.ok (g s)) items).submits
      = items.length := by
  have h := prefetchLoop_allOk (E := E) count g items []
  simp only [List.map_nil, List.nil_append] at h
  exact h

/-- C2: for every source, bound and (resolving) transform, the pending window
starts empty (trace head `0`), never holds more than `count + 1`
submitted-but-not-yet-yielded transforms at any reachable state (every trace
entry is at most `count + 1`), is fully drained (length `0`) at generator
termination (trace last `0`), and grows by exactly one submission per source
element consumed (`submits` equals the source length). -/
theorem prefetch_window_invariant {T E Out : Type} (count : Nat) (g : T → Out)
    (items : List T) :
    (prefetchTrace (E := E) count (fun s => Except.ok (g s)) items).head?
      = some 0 ∧
    (∀ n ∈ prefetchTrace (E := E) count (fun s => Except.ok (g s)) items,
      n ≤ count + 1) ∧
    (prefetchTrace (E := E) count (fun s => Except.ok (g s)) items).getLast?
      = some 0 ∧
    (prefetch (E := E) count (fun s => Except.ok (g s)) items).submits
      = items.length := by
  refine ⟨rfl, ?_, ?_, ?_⟩
  · intro n hn
    simp only [prefetchTrace, prefetch, List.mem_cons] at hn
    rcases hn with rfl | hn
    · omega
    · exact prefetchLoop_lens_bound count _ items [] (by simp) n hn
  · simp only [prefetchTrace, prefetch, List.getLast?_cons]
    have h := prefetchLoop_allOk_lens_last (E := E) count g items []
    simp only [List.map_nil, List.length_nil] at h
    rw [List.getLastD_eq_getLast?] at h
    rw [h]
  · have h := prefetchLoop_allOk (E := E) count g items []
    simp only [List.map_nil] at h
    exact h.2.2

/-- Witness for C2 at the spec's own example: source `[1, 2, 3, 4]`,
bound `2`, squaring transform — the state with `3 = count + 1` pending
transforms is reached and admitted by the bound. -/
theorem prefetch_window_invariant_witness : (3 : Nat) ≤ 2 + 1 :=
  (prefetch_window_invariant (E := Unit) 2 (fun n : Nat => n * n)
    [1, 2, 3, 4]).2.1 3 (by decide)

/-- C3: for every source and every transform (including rejecting ones),
`prefetch` with `count = 0` produces exactly the output of the naive
sequential submit-then-immediately-await implementation. -/
theorem prefetch_zero_equals_naive {T E Out : Type} (f : T → Except E Out)
    (items : List T) :
    (prefetch 0 f items).outputs = (naiveSequential f items).1 ∧
    (prefetch 0 f items).error = (naiveSequential f items).2 :=
  prefetchLoop_zero_naive f items

/-- C4: if the transform resolves (via `g`) on every element before `x` and
its promise for `x` rejects with `e`, then `prefetch` yields the correct
transformed results for every element preceding `x`, in order, and then
raises `e` at exactly that position (the failed transform is applied only
once — the model applies the transform once per consumed element by
construction — and the failure carries no cancellation of sibling work). -/
theorem prefetch_error_at_position {T E Out : Type} (count : Nat)
    (f : T → Except E Out) (g : T → Out) (pre post : List T) (x : T) (e : E)
    (hpre : ∀ s ∈ pre, f s = Except.ok (g s)) (hx : f x = Except.error e) :
    (prefetch count f (pre ++ x :: post)).outputs = pre.map g ∧
    (prefetch count f (pre ++ x :: post)).error = some e := by
  have h := prefetchLoop_error_main count f g x e post hx pre [] hpre
  simp only [List.map_nil, List.nil_append] at h
  exact h

/-- Witness for C4 at a concrete input: source `[10, 20, 30]`, bound `1`,
squaring transform that rejects on `20`. -/
theorem prefetch_error_at_position_witness :
    (prefetch 1
        (fun n => if n = 20 then Except.error "boom" else Except.ok (n * n))
        ([10] ++ 20 :: [30])).outputs = [10].map (fun n => n * n) ∧
    (prefetch 1
        (fun n => if n = 20 then Except.error "boom" else Except.ok (n * n))
        ([10] ++ 20 :: [30])).error = some "boom" :=
  prefetch_error_at_position 1
    (fun n => if n = 20 then Except.error "boom" else Except.ok (n * n))
    (fun n => n * n) [10] [30] 20 "boom"
    (by intro s hs; rw [List.mem_singleton] at hs; subst hs; rfl) rfl

/-- C5: for every bound and every transform, `prefetch` on an empty source
yields the empty output, no error, an empty ready-buffer trace, and zero
transform submissions — the transform is never invoked. -/
theorem prefetch_empty_source {T E Out : Type} (count : Nat)
    (f : T → Except E Out) :
    prefetch count f ([] : List T) = ⟨[], none, [], 0⟩ := rfl

/-- C6: `parseUserID` either returns the decoded bytes or throws exactly one
of the five categorized messages, each under its stated condition: empty
input; input the base58 decoder rejects; decoded length below 32; decoded
length exactly 36 (= `PASSWORD_BYTES`), with the distinct password warning;
any other decoded length above 32. -/
theorem parseUserID_categorized (decode : String → Option (List Nat))
    (s : String) :
    (s.length = 0 ∧
      parseUserID decode s = Except.error "UserID must not be empty.") ∨
    (s.length ≠ 0 ∧ decode s = none ∧
      parseUserID decode s = Except.error "Not valid base58") ∨
    (∃ buf, s.length ≠ 0 ∧ decode s = some buf ∧
      buf.length < USER_ID_BYTES ∧
      parseUserID decode s = Except.error "UserID too short") ∨
    (∃ buf, s.length ≠ 0 ∧ decode s = some buf ∧
      buf.length = PASSWORD_BYTES ∧
      parseUserID decode s
        = Except.error "UserID too long. (This may be a paswword!?)") ∨
    (∃ buf, s.length ≠ 0 ∧ decode s = some buf ∧
      USER_ID_BYTES < buf.length ∧ buf.length ≠ PASSWORD_BYTES ∧
      parseUserID decode s = Except.error "UserID too long.") ∨
    (∃ buf, s.length ≠ 0 ∧ decode s = some buf ∧
      buf.length = USER_ID_BYTES ∧
      parseUserID decode s = Except.ok buf) := by
  by_cases h0 : s.length = 0
  · exact Or.inl ⟨h0, by simp [parseUserID, h0]⟩
  · rcases hd : decode s with _ | buf
    · exact Or.inr (Or.inl ⟨h0, rfl, by simp [parseUserID, h0, hd]⟩)
    · by_cases h1 : buf.length < USER_ID_BYTES
      · exact Or.inr (Or.inr (Or.inl
          ⟨buf, h0, rfl, h1, by simp [parseUserID, h0, hd, h1]⟩))
      · by_cases h2 : buf.length = PASSWORD_BYTES
        · exact Or.inr (Or.inr (Or.inr (Or.inl
            ⟨buf, h0, rfl, h2,
              by simp [parseUserID, USER_ID_BYTES, PASSWORD_BYTES, h0, hd,
                h2]⟩)))
        · by_cases h3 : USER_ID_BYTES < buf.length
          · exact Or.inr (Or.inr (Or.inr (Or.inr (Or.inl
              ⟨buf, h0, rfl, h3, h2,
                by simp [parseUserID, h0, hd, h1, h2, h3]⟩))))
          · refine Or.inr (Or.inr (Or.inr (Or.inr (Or.inr
              ⟨buf, h0, rfl, ?_, ?_⟩))))
            · exact Nat.le_antisymm (Nat.not_lt.mp h3) (Nat.not_lt.mp h1)
            · simp [parseUserID, h0, hd, h1, h2, h3]

/-- C7: whenever `parseUserID` returns bytes, they are exactly 32
(`USER_ID_BYTES`) long; conversely, whenever the base58 decode of the input
is not exactly 32 bytes, `parseUserID` throws some rejection. -/
theorem parseUserID_length_exactly (decode : String → Option (List Nat))
    (s : String) :
    (∀ buf, parseUserID decode s = Except.ok buf →
      buf.length = USER_ID_BYTES) ∧
    (∀ buf, decode s = some buf → buf.length ≠ USER_ID_BYTES →
      ∃ m, parseUserID decode s = Except.error m) := by
  constructor
  · intro buf h
    unfold parseUserID at h
    by_cases h0 : s.length = 0
    · rw [if_pos h0] at h
      injection h
    · rw [if_neg h0] at h
      rcases hd : decode s with _ | b
      · rw [hd] at h
        injection h
      · rw [hd] at h
        dsimp only at h
        split_ifs at h with h1 h2 h3
        rw [Except.ok.injEq] at h
        subst h
        exact Nat.le_antisymm (Nat.not_lt.mp h3) (Nat.not_lt.mp h1)
  · intro buf hd hne
    unfold parseUserID
    by_cases h0 : s.length = 0
    · rw [if_pos h0]
      exact ⟨_, rfl⟩
    · rw [if_neg h0, hd]
      dsimp only
      split_ifs with h1 h2 h3
      · exact ⟨_, rfl⟩
      · exact ⟨_, rfl⟩
      · exact ⟨_, rfl⟩
      · exact absurd
          (Nat.le_antisymm (Nat.not_lt.mp h3) (Nat.not_lt.mp h1)) hne

/-- Witness for C7 at concrete inputs: a decode returning 32 bytes is
accepted with a 32-byte result; a decode returning 3 bytes is rejected. -/
theorem parseUserID_length_exactly_witness :
    (List.replicate 32 0).length = USER_ID_BYTES ∧
    ∃ m, parseUserID (fun _ => some [1, 2, 3]) "x" = Except.error m :=
  ⟨(parseUserID_length_exactly (fun _ => some (List.replicate 32 0)) "x").1
      (List.replicate 32 0) rfl,
    (parseUserID_length_exactly (fun _ => some [1, 2, 3]) "x").2 [1, 2, 3]
      rfl (by decide)⟩

/-- C8: `validateServerURL` and `parseUserIDError` are total
(they return plain strings — the model gives them no error channel at all):
`validateServerURL` returns `""` exactly on the empty string or a string of
the `http(s)://host` shape (non-empty host free of `/` and space) and the
fixed non-empty reason otherwise, and `parseUserIDError` returns `""` exactly
when `parseUserID` accepts, otherwise the very message `parseUserID` throws. -/
theorem validators_pure (decode : String → Option (List Nat))
    (url s : String) :
    (validateServerURL url = "" ↔ (url = "" ∨ specServerURLOk url)) ∧
    (validateServerURL url ≠ "" →
      validateServerURL url = "Invalid server URL format") ∧
    (parseUserIDError decode s = "" ↔
      ∃ buf, parseUserID decode s = Except.ok buf) ∧
    (∀ m, parseUserID decode s = Except.error m →
      parseUserIDError decode s = m) := by
  refine ⟨?_, ?_, ?_, ?_⟩
  · by_cases hurl : url = ""
    · simp [validateServerURL, hurl]
    · unfold validateServerURL
      rw [if_neg hurl]
      by_cases hm : serverURLPatternMatches url.toList = true
      · rw [if_pos hm]
        constructor
        · intro _
          exact Or.inr ((serverURLPatternMatches_iff_spec url).mp hm)
        · intro _
          rfl
      · rw [if_neg hm]
        constructor
        · intro habs
          exact absurd habs (by decide)
        · rintro (h | h)
          · exact absurd h hurl
          · exact absurd ((serverURLPatternMatches_iff_spec url).mpr h) hm
  · intro hne
    unfold validateServerURL at hne ⊢
    split_ifs at hne ⊢
    · exact absurd rfl hne
    · exact absurd rfl hne
    · rfl
  · rcases hp : parseUserID decode s with m | buf
    · unfold parseUserIDError
      rw [hp]
      dsimp only
      constructor
      · intro h
        exact absurd h (parseUserID_error_msgs decode s m hp)
      · rintro ⟨buf, habs⟩
        exact Except.noConfusion habs
    · unfold parseUserIDError
      rw [hp]
      dsimp only
      constructor
      · intro _
        exact ⟨buf, rfl⟩
      · intro _
        rfl
  · intro m hm
    unfold parseUserIDError
    rw [hm]

/-- Witness for C8 at concrete inputs: a non-matching URL gets the fixed
reason, and a failing decode surfaces the thrown message. -/
theorem validators_pure_witness :
    validateServerURL "ftp://x" = "Invalid server URL format" ∧
    parseUserIDError (fun _ => none) "abc" = "Not valid base58" :=
  ⟨(validators_pure (fun _ => none) "ftp://x" "abc").2.1 (by decide),
    (validators_pure (fun _ => none) "ftp://x" "abc").2.2.2
      "Not valid base58" rfl⟩

/-- C9: `TaskTracker.run` never re-throws the wrapped task's exception: when
the task throws `e`, `run` still returns a final state (it is a total
function into `TaskTracker`, with no error channel), that state is no longer
running, and its history contains an error-flagged entry carrying the
exception's textual description. -/
theorem taskTracker_run_catches (t : TaskTracker) (task : TaskOutcome)
    (tBegin tCatch tDone : Nat) (e : String) (h : task.thrown = some e) :
    (t.run task tBegin tCatch tDone)._isRunning = false ∧
    ∃ entry ∈ (t.run task tBegin tCatch tDone)._logs,
      entry.isError = true ∧
      entry.message = "Task threw an exception: " ++ e := by
  constructor
  · simp [TaskTracker.run, TaskTracker.clear, TaskTracker.log,
      TaskTracker.error, TaskTracker.writeLog, h]
  · refine ⟨⟨tCatch, "Task threw an exception: " ++ e, true, false⟩,
      ?_, rfl, rfl⟩
    simp [TaskTracker.run, TaskTracker.clear, TaskTracker.log,
      TaskTracker.error, TaskTracker.writeLog, h]

/-- Witness for C9 at a concrete input: a fresh tracker whose task appends
nothing and throws `"oops"`. -/
theorem taskTracker_run_catches_witness :
    (TaskTracker.run {} { appended := [], thrown := some "oops" }
      0 1 2)._isRunning = false ∧
    ∃ entry ∈ (TaskTracker.run {} { appended := [], thrown := some "oops" }
      0 1 2)._logs,
      entry.isError = true ∧
      entry.message = "Task threw an exception: " ++ "oops" :=
  taskTracker_run_catches {} { appended := [], thrown := some "oops" }
    0 1 2 "oops" rfl

/-- C10: `run` clears the history first, so the resulting state is entirely
independent of the tracker it started from (running the same task from any
two trackers gives identical results), and the final history starts with the
`Begin` entry and ends with the `Done` entry whether or not the task threw. -/
theorem taskTracker_run_fresh_history (t t' : TaskTracker)
    (task : TaskOutcome) (tBegin tCatch tDone : Nat) :
    (t.run task tBegin tCatch tDone)._logs.head?
      = some { timestamp := tBegin, message := "Begin" } ∧
    (t.run task tBegin tCatch tDone)._logs.getLast?
      = some { timestamp := tDone, message := "Done" } ∧
    t.run task tBegin tCatch tDone
      = TaskTracker.run t' task tBegin tCatch tDone := by
  have hlast : ∀ (b d : LogEntry) (l : List LogEntry),
      (b :: (l ++ [d])).getLast? = some d := by
    intro b d l
    rw [← List.cons_append, List.getLast?_concat]
  have hlast2 : ∀ (b c d : LogEntry) (l : List LogEntry),
      (b :: (l ++ [c, d])).getLast? = some d := by
    intro b c d l
    rw [show l ++ [c, d] = (l ++ [c]) ++ [d] by simp,
      ← List.cons_append, List.getLast?_concat]
  rcases h : task.thrown with _ | e <;>
    simp [TaskTracker.run, TaskTracker.clear, TaskTracker.log,
      TaskTracker.error, TaskTracker.writeLog, h, hlast, hlast2]

end Feoblog
